import Mathlib

/-!
Shallow embedding of the Game of Life engine in `src/main.py`
(repository School_Python101_Game_Of_Life).

Coordinates are pairs of integers (Python ints), a live-cell set is a
`Finset (ℤ × ℤ)` (Python `set` of tuples).  The module constants
`GRID_WIDTH`/`GRID_HEIGHT` are 40 in the source; the geometry functions
close over them, so the embedding takes the width `W` and height `H` as
explicit parameters and instantiates them with the constants where a claim
is about the concrete program.
-/

/-- Constant `GRID_WIDTH = 40` from `src/main.py`. -/
def GRID_WIDTH : ℤ := 40

/-- Constant `GRID_HEIGHT = 40` from `src/main.py`. -/
def GRID_HEIGHT : ℤ := 40

/-- The spec's `isInBounds`: `0 ≤ x < width` and `0 ≤ y < height`.  These are
exactly the bound checks done inline in `get_neighbors`. -/
def inBounds (W H : ℤ) (c : ℤ × ℤ) : Prop :=
  0 ≤ c.1 ∧ c.1 < W ∧ 0 ≤ c.2 ∧ c.2 < H

instance (W H : ℤ) (c : ℤ × ℤ) : Decidable (inBounds W H c) := by
  unfold inBounds; infer_instance

/-- Function `get_neighbors` from `src/main.py`: for `dx` in `[-1,0,1]`, skip when
`x+dx` is out of `[0, W)`; for `dy` in `[-1,0,1]`, skip when `y+dy` is out of
`[0, H)` or when `dx = dy = 0`; collect `(x+dx, y+dy)`. -/
def get_neighbors (W H : ℤ) (pos : ℤ × ℤ) : List (ℤ × ℤ) :=
  (([-1, 0, 1] : List ℤ).filter (fun dx => decide (0 ≤ pos.1 + dx ∧ pos.1 + dx < W))).flatMap
    (fun dx =>
      (([-1, 0, 1] : List ℤ).filter
          (fun dy => decide ((0 ≤ pos.2 + dy ∧ pos.2 + dy < H) ∧ ¬(dx = 0 ∧ dy = 0)))).map
        (fun dy => (pos.1 + dx, pos.2 + dy)))

/-- The Python expression `len([n for n in get_neighbors(p) if n in positions])`, the alive-neighbor
count computed in both passes of `adjust_grid`. -/
def aliveNeighborCount (W H : ℤ) (positions : Finset (ℤ × ℤ)) (p : ℤ × ℤ) : ℕ :=
  ((get_neighbors W H p).filter (fun n => decide (n ∈ positions))).length

/-- Function `adjust_grid` from `src/main.py`.  First pass: every live cell with 2 or 3
alive neighbors survives; the union of all neighbor lists of live cells is
accumulated as `all_neighbors`.  Second pass: every member of `all_neighbors`
with exactly 3 alive neighbors is added.  The Python `set` iteration order does
not affect the resulting set, so the two loops are rendered as a filter on the
live set united with a filter on the neighbor union. -/
def adjust_grid (W H : ℤ) (positions : Finset (ℤ × ℤ)) : Finset (ℤ × ℤ) :=
  (positions.filter
      (fun p => aliveNeighborCount W H positions p = 2 ∨ aliveNeighborCount W H positions p = 3))
  ∪ (positions.biUnion (fun p => (get_neighbors W H p).toFinset)).filter
      (fun p => aliveNeighborCount W H positions p = 3)

/-- Function `gen` from `src/main.py`: `num` draws of
`(randrange(0, GRID_HEIGHT), randrange(0, GRID_WIDTH))` collected into a set.
The random source is modelled as an arbitrary stream `rand` of natural-number
pairs; `randrange(0, n)` is its value reduced mod `n`, which realises the
contract that the draw lies in `[0, n)`. -/
def gen (num : ℕ) (rand : ℕ → ℕ × ℕ) : Finset (ℤ × ℤ) :=
  ((List.range num).map
      (fun i => (((rand i).1 : ℤ) % GRID_HEIGHT, ((rand i).2 : ℤ) % GRID_WIDTH))).toFinset

/-- Modelled from the spec: the source has no cell-toggle function (`main.py`'s
instructions mention clicking cells, but no toggle code exists under `src/`).
Per the spec, `toggle` flips membership of a single in-bounds coordinate
(present → removed, absent → inserted) and is a no-op for out-of-bounds input. -/
def toggle (W H : ℤ) (c : ℤ × ℤ) (L : Finset (ℤ × ℤ)) : Finset (ℤ × ℤ) :=
  if inBounds W H c then (if c ∈ L then L.erase c else insert c L) else L

/-- The session state of `main` in `src/main.py`: live positions, the play
flag, and the generation counter. -/
structure GameState where
  positions : Finset (ℤ × ℤ)
  playing : Bool
  generation : ℕ

/-- The Clear button handler (`src/main.py` lines 130–133):
`st.session_state.positions = set(); st.session_state.generation = 0`. -/
def clearClick (s : GameState) : GameState :=
  { s with positions := ∅, generation := 0 }

/-- The vertical blinker of the spec's end-to-end example. -/
def blinkerV : Finset (ℤ × ℤ) := {(1, 1), (1, 2), (1, 3)}

/-- The horizontal blinker of the spec's end-to-end example. -/
def blinkerH : Finset (ℤ × ℤ) := {(0, 2), (1, 2), (2, 2)}

/-- A full-grid scan step, written from the spec's rule table (B3/S23): every
in-bounds cell is kept iff it is alive with 2 or 3 alive neighbors, or dead
with exactly 3.  Used as the reference implementation for the refinement
claim. -/
def fullScanStep (W H : ℤ) (positions : Finset (ℤ × ℤ)) : Finset (ℤ × ℤ) :=
  (Finset.Icc (0 : ℤ) (W - 1) ×ˢ Finset.Icc (0 : ℤ) (H - 1)).filter
    (fun c =>
      if c ∈ positions then
        aliveNeighborCount W H positions c = 2 ∨ aliveNeighborCount W H positions c = 3
      else aliveNeighborCount W H positions c = 3)

/-! ### Basic characterisations -/

/-- Membership in the neighbor list: `b` is listed iff it is in bounds,
distinct from `a`, and within Chebyshev distance 1 of `a`. -/
theorem mem_get_neighbors {W H : ℤ} {a b : ℤ × ℤ} :
    b ∈ get_neighbors W H a ↔
      inBounds W H b ∧ ¬(b.1 = a.1 ∧ b.2 = a.2) ∧
        a.1 - 1 ≤ b.1 ∧ b.1 ≤ a.1 + 1 ∧ a.2 - 1 ≤ b.2 ∧ b.2 ≤ a.2 + 1 := by
  obtain ⟨x, y⟩ := a
  obtain ⟨u, v⟩ := b
  simp only [get_neighbors, List.mem_flatMap, List.mem_map, List.mem_filter,
    List.mem_cons, List.not_mem_nil, or_false, decide_eq_true_eq, inBounds, Prod.mk.injEq]
  constructor
  · rintro ⟨dx, ⟨hdx, hx0, hxW⟩, dy, ⟨hdy, ⟨hy0, hyH⟩, hne⟩, hu, hv⟩
    subst hu; subst hv
    omega
  · rintro ⟨⟨hu0, huW, hv0, hvH⟩, hne, h1, h2, h3, h4⟩
    refine ⟨u - x, ⟨by omega, by omega, by omega⟩, v - y, ⟨by omega, ⟨by omega, by omega⟩, ?_⟩,
      by omega, by omega⟩
    omega

/-- Every listed neighbor is in bounds (the source filters each offset). -/
theorem get_neighbors_inBounds {W H : ℤ} {a b : ℤ × ℤ} (h : b ∈ get_neighbors W H a) :
    inBounds W H b :=
  (mem_get_neighbors.1 h).1

/-- The neighbor list has no duplicates. -/
theorem get_neighbors_nodup (W H : ℤ) (p : ℤ × ℤ) : (get_neighbors W H p).Nodup := by
  unfold get_neighbors
  refine List.nodup_flatMap.2 ⟨?_, ?_⟩
  · intro dx _
    refine List.Nodup.map ?_ (List.Nodup.filter _ (by decide))
    intro a b hab
    rw [Prod.mk.injEq] at hab
    omega
  · refine List.Nodup.pairwise_of_forall_ne (List.Nodup.filter _ (by decide)) ?_
    intro dx hdx dx' hdx' hne a ha ha'
    simp only [List.mem_map] at ha ha'
    obtain ⟨dy, _, rfl⟩ := ha
    obtain ⟨dy', _, h⟩ := ha'
    rw [Prod.mk.injEq] at h
    exact hne (by omega)

/-- The alive-neighbor count is the number of live cells adjacent to `p`. -/
theorem aliveNeighborCount_eq_card (W H : ℤ) (L : Finset (ℤ × ℤ)) (p : ℤ × ℤ) :
    aliveNeighborCount W H L p = (L.filter (fun n => n ∈ get_neighbors W H p)).card := by
  have hset : ((get_neighbors W H p).filter (fun n => decide (n ∈ L))).toFinset
      = L.filter (fun n => n ∈ get_neighbors W H p) := by
    ext n
    simp only [List.mem_toFinset, List.mem_filter, Finset.mem_filter, decide_eq_true_eq]
    exact and_comm
  unfold aliveNeighborCount
  rw [← List.toFinset_card_of_nodup (List.Nodup.filter _ (get_neighbors_nodup W H p)), hset]

/-- Raw membership characterisation of `adjust_grid`: survivors united with
births among the neighbor union. -/
theorem mem_adjust_grid {W H : ℤ} {L : Finset (ℤ × ℤ)} {c : ℤ × ℤ} :
    c ∈ adjust_grid W H L ↔
      (c ∈ L ∧ (aliveNeighborCount W H L c = 2 ∨ aliveNeighborCount W H L c = 3)) ∨
        ((∃ p ∈ L, c ∈ get_neighbors W H p) ∧ aliveNeighborCount W H L c = 3) := by
  unfold adjust_grid
  simp only [Finset.mem_union, Finset.mem_filter, Finset.mem_biUnion, List.mem_toFinset]

/-- Members of `adjust_grid L` are in bounds whenever members of `L` are. -/
theorem mem_adjust_grid_inBounds {W H : ℤ} {L : Finset (ℤ × ℤ)}
    (hL : ∀ p ∈ L, inBounds W H p) {c : ℤ × ℤ} (hc : c ∈ adjust_grid W H L) :
    inBounds W H c := by
  rcases mem_adjust_grid.1 hc with ⟨h1, _⟩ | ⟨⟨p, _, hnb⟩, _⟩
  · exact hL c h1
  · exact get_neighbors_inBounds hnb

/-- The B3/S23 rule characterisation of `adjust_grid` at an in-bounds cell. -/
theorem adjust_grid_rule {W H : ℤ} {L : Finset (ℤ × ℤ)} {c : ℤ × ℤ}
    (hc : inBounds W H c) :
    c ∈ adjust_grid W H L ↔
      (c ∈ L ∧ (aliveNeighborCount W H L c = 2 ∨ aliveNeighborCount W H L c = 3)) ∨
        (c ∉ L ∧ aliveNeighborCount W H L c = 3) := by
  rw [mem_adjust_grid]
  constructor
  · rintro (⟨h1, h2⟩ | ⟨_, h3⟩)
    · exact Or.inl ⟨h1, h2⟩
    · by_cases hcL : c ∈ L
      · exact Or.inl ⟨hcL, Or.inr h3⟩
      · exact Or.inr ⟨hcL, h3⟩
  · rintro (⟨h1, h2⟩ | ⟨h1, h3⟩)
    · exact Or.inl ⟨h1, h2⟩
    · refine Or.inr ⟨?_, h3⟩
      have hpos : ((get_neighbors W H c).filter (fun n => decide (n ∈ L))) ≠ [] := by
        intro hnil
        have : aliveNeighborCount W H L c = 0 := by
          unfold aliveNeighborCount; rw [hnil]; rfl
        omega
      obtain ⟨n, hn⟩ := List.exists_mem_of_ne_nil _ hpos
      rw [List.mem_filter, decide_eq_true_eq] at hn
      obtain ⟨hn1, hnL⟩ := hn
      obtain ⟨hnb, hne, d1, d2, d3, d4⟩ := mem_get_neighbors.1 hn1
      exact ⟨n, hnL, mem_get_neighbors.2 ⟨hc, by omega, by omega, by omega, by omega, by omega⟩⟩

/-- Closed form for the neighbor-list length of an in-bounds cell: one factor
per axis, 3 offsets minus the clipped ones, with the cell itself removed. -/
theorem get_neighbors_length (W H x y : ℤ) (hx0 : 0 ≤ x) (hxW : x < W)
    (hy0 : 0 ≤ y) (hyH : y < H) :
    (get_neighbors W H (x, y)).length =
      (1 + (if 1 ≤ x then 1 else 0) + (if x + 1 < W then 1 else 0)) *
        (1 + (if 1 ≤ y then 1 else 0) + (if y + 1 < H then 1 else 0)) - 1 := by
  by_cases P1 : 1 ≤ x <;> by_cases P2 : x + 1 < W <;>
    by_cases Q1 : 1 ≤ y <;> by_cases Q2 : y + 1 < H <;>
  · simp only [get_neighbors, List.filter_cons, List.filter_nil, decide_eq_true_eq]
    simp (disch := omega) only [if_pos, if_neg, true_and, and_true, not_true, and_false,
      false_and, if_false, if_true, List.flatMap_cons, List.flatMap_nil,
      List.map_cons, List.map_nil, List.length_append, List.length_cons, List.length_nil,
      List.length_map, List.append_nil, List.nil_append]

/-! ### Claim theorems -/

/-- Claim C1: for a live set of in-bounds cells and an in-bounds coordinate
`c`, `c` is in the next generation iff it is alive with 2 or 3 alive
neighbors, or dead with exactly 3 alive neighbors (B3/S23). -/
theorem step_rule_B3S23 (W H : ℤ) (L : Finset (ℤ × ℤ)) (hL : ∀ p ∈ L, inBounds W H p)
    (c : ℤ × ℤ) (hc : inBounds W H c) :
    c ∈ adjust_grid W H L ↔
      (c ∈ L ∧ (aliveNeighborCount W H L c = 2 ∨ aliveNeighborCount W H L c = 3)) ∨
        (c ∉ L ∧ aliveNeighborCount W H L c = 3) :=
  adjust_grid_rule hc

/-- Witness for C1 at the blinker on a 5×5 grid and the coordinate (0,2). -/
theorem step_rule_B3S23_witness :
    (((0, 2) : ℤ × ℤ) ∈ adjust_grid 5 5 blinkerV ↔
      (((0, 2) : ℤ × ℤ) ∈ blinkerV ∧
          (aliveNeighborCount 5 5 blinkerV (0, 2) = 2 ∨
            aliveNeighborCount 5 5 blinkerV (0, 2) = 3)) ∨
        (((0, 2) : ℤ × ℤ) ∉ blinkerV ∧ aliveNeighborCount 5 5 blinkerV (0, 2) = 3)) :=
  step_rule_B3S23 5 5 blinkerV (by decide) (0, 2) (by decide)

/-- Claim C2: the two-pass sparse step equals the full-grid scan that applies
the B3/S23 rule table to every in-bounds cell. -/
theorem sparse_step_eq_fullScan (W H : ℤ) (L : Finset (ℤ × ℤ))
    (hL : ∀ p ∈ L, inBounds W H p) :
    adjust_grid W H L = fullScanStep W H L := by
  ext c
  constructor
  · intro hc
    have hb := mem_adjust_grid_inBounds hL hc
    simp only [fullScanStep, Finset.mem_filter, Finset.mem_product, Finset.mem_Icc]
    obtain ⟨h1, h2, h3, h4⟩ := hb
    refine ⟨⟨⟨h1, by omega⟩, h3, by omega⟩, ?_⟩
    have hr := (adjust_grid_rule ⟨h1, h2, h3, h4⟩).1 hc
    by_cases hcL : c ∈ L
    · rw [if_pos hcL]
      rcases hr with ⟨_, h⟩ | ⟨hn, _⟩
      · exact h
      · exact absurd hcL hn
    · rw [if_neg hcL]
      rcases hr with ⟨h, _⟩ | ⟨_, h⟩
      · exact absurd h hcL
      · exact h
  · intro hc
    simp only [fullScanStep, Finset.mem_filter, Finset.mem_product, Finset.mem_Icc] at hc
    obtain ⟨⟨⟨a1, a2⟩, a3, a4⟩, hrule⟩ := hc
    have hb : inBounds W H c := ⟨a1, by omega, a3, by omega⟩
    rw [adjust_grid_rule hb]
    by_cases hcL : c ∈ L
    · rw [if_pos hcL] at hrule
      exact Or.inl ⟨hcL, hrule⟩
    · rw [if_neg hcL] at hrule
      exact Or.inr ⟨hcL, hrule⟩

/-- Witness for C2 at the blinker on a 5×5 grid. -/
theorem sparse_step_eq_fullScan_witness :
    adjust_grid 5 5 blinkerV = fullScanStep 5 5 blinkerV :=
  sparse_step_eq_fullScan 5 5 blinkerV (by decide)

/-- Claim C4: stepping preserves the bounds invariant. -/
theorem step_preserves_inBounds (W H : ℤ) (L : Finset (ℤ × ℤ))
    (hL : ∀ p ∈ L, inBounds W H p) :
    ∀ c ∈ adjust_grid W H L, inBounds W H c :=
  fun _ hc => mem_adjust_grid_inBounds hL hc

/-- Witness for C4: the cell (0,2) of the stepped blinker is in bounds. -/
theorem step_preserves_inBounds_witness : inBounds 5 5 ((0 : ℤ), (2 : ℤ)) :=
  step_preserves_inBounds 5 5 blinkerV (by decide) (0, 2) (by decide)

/-- Claim C6: the step is deterministic — evaluating it twice on the same
live set and geometry gives equal results (it is a pure function of its
arguments in the embedding). -/
theorem step_deterministic (W H : ℤ) (L : Finset (ℤ × ℤ)) :
    adjust_grid W H L = adjust_grid W H L := rfl

/-- Claim C7: `gen num` returns at most `num` cells, all of them in bounds
for the program's 40×40 grid. -/
theorem gen_card_le_and_inBounds (num : ℕ) (rand : ℕ → ℕ × ℕ) :
    (gen num rand).card ≤ num ∧ ∀ c ∈ gen num rand, inBounds GRID_WIDTH GRID_HEIGHT c := by
  constructor
  · unfold gen
    refine le_trans (List.toFinset_card_le _) ?_
    simp
  · intro c hc
    simp only [gen, List.mem_toFinset, List.mem_map, List.mem_range] at hc
    obtain ⟨i, _, rfl⟩ := hc
    simp only [inBounds, GRID_WIDTH, GRID_HEIGHT]
    omega

/-- Claim C8: toggling the same in-bounds coordinate twice restores the
original live set. -/
theorem toggle_involutive (W H : ℤ) (c : ℤ × ℤ) (L : Finset (ℤ × ℤ))
    (hc : inBounds W H c) :
    toggle W H c (toggle W H c L) = L := by
  simp only [toggle, if_pos hc]
  by_cases hm : c ∈ L
  · rw [if_pos hm, if_neg (Finset.not_mem_erase c L)]
    exact Finset.insert_erase hm
  · rw [if_neg hm, if_pos (Finset.mem_insert_self c L)]
    exact Finset.erase_insert hm

/-- Witness for C8 at (1,1) on the program's grid, starting from ∅. -/
theorem toggle_involutive_witness :
    toggle GRID_WIDTH GRID_HEIGHT (1, 1) (toggle GRID_WIDTH GRID_HEIGHT (1, 1) ∅) =
      (∅ : Finset (ℤ × ℤ)) :=
  toggle_involutive GRID_WIDTH GRID_HEIGHT (1, 1) ∅ (by decide)

/-- Claim C9: the Clear handler empties the live set and zeroes the
generation counter, whatever the prior state was. -/
theorem clearClick_resets (s : GameState) :
    (clearClick s).positions = ∅ ∧ (clearClick s).generation = 0 :=
  ⟨rfl, rfl⟩

/-- Claim C10: the neighbor relation is symmetric on in-bounds coordinates. -/
theorem neighbor_symm (W H : ℤ) (a b : ℤ × ℤ)
    (ha : inBounds W H a) (hb : inBounds W H b) :
    b ∈ get_neighbors W H a ↔ a ∈ get_neighbors W H b := by
  rw [mem_get_neighbors, mem_get_neighbors]
  constructor
  · rintro ⟨_, hne, h1, h2, h3, h4⟩
    exact ⟨ha, by omega, by omega, by omega, by omega, by omega⟩
  · rintro ⟨_, hne, h1, h2, h3, h4⟩
    exact ⟨hb, by omega, by omega, by omega, by omega, by omega⟩

/-- Claim C3: on an N×N grid (N ≥ 3) the neighbor list of an in-bounds cell
contains only in-bounds cells, never the cell itself, has no duplicates, and
has length 3 at a corner, 5 on an edge that is not a corner, and 8 in the
interior. -/
theorem neighbor_counts (N : ℤ) (hN : 3 ≤ N) (c : ℤ × ℤ) (hc : inBounds N N c) :
    (∀ b ∈ get_neighbors N N c, inBounds N N b) ∧
      c ∉ get_neighbors N N c ∧
      (get_neighbors N N c).Nodup ∧
      ((c.1 = 0 ∨ c.1 = N - 1) ∧ (c.2 = 0 ∨ c.2 = N - 1) →
        (get_neighbors N N c).length = 3) ∧
      (((c.1 = 0 ∨ c.1 = N - 1) ∧ ¬(c.2 = 0 ∨ c.2 = N - 1)) ∨
          (¬(c.1 = 0 ∨ c.1 = N - 1) ∧ (c.2 = 0 ∨ c.2 = N - 1)) →
        (get_neighbors N N c).length = 5) ∧
      (¬(c.1 = 0 ∨ c.1 = N - 1) ∧ ¬(c.2 = 0 ∨ c.2 = N - 1) →
        (get_neighbors N N c).length = 8) := by
  obtain ⟨x, y⟩ := c
  have hc' : 0 ≤ x ∧ x < N ∧ 0 ≤ y ∧ y < N := hc
  obtain ⟨hx0, hxN, hy0, hyN⟩ := hc'
  refine ⟨fun b hb => get_neighbors_inBounds hb, ?_, get_neighbors_nodup N N _, ?_, ?_, ?_⟩
  · intro hmem
    exact (mem_get_neighbors.1 hmem).2.1 ⟨rfl, rfl⟩
  · intro h
    rw [get_neighbors_length N N x y hx0 hxN hy0 hyN]
    split_ifs <;> omega
  · intro h
    rw [get_neighbors_length N N x y hx0 hxN hy0 hyN]
    split_ifs <;> omega
  · intro h
    rw [get_neighbors_length N N x y hx0 hxN hy0 hyN]
    split_ifs <;> omega

/-- Witness for C3: the interior cell (1,1) of a 3×3 grid has 8 neighbors. -/
theorem neighbor_counts_witness : (get_neighbors 3 3 ((1 : ℤ), (1 : ℤ))).length = 8 :=
  (neighbor_counts 3 (by norm_num) (1, 1) (by decide)).2.2.2.2.2 (by decide)

/-- One step of the vertical blinker on any grid of width and height at
least 5 gives the horizontal blinker. -/
theorem blinker_step_one (W H : ℤ) (hW : 5 ≤ W) (hH : 5 ≤ H) :
    adjust_grid W H blinkerV = blinkerH := by
  ext c
  obtain ⟨a, b⟩ := c
  rw [mem_adjust_grid, aliveNeighborCount_eq_card]
  simp (disch := decide) only [blinkerV, blinkerH, Finset.card_filter, Finset.sum_insert,
    Finset.sum_singleton, Finset.mem_insert, Finset.mem_singleton, or_and_right, exists_or,
    exists_eq_left, mem_get_neighbors, inBounds, Prod.mk.injEq]
  split_ifs <;> omega

/-- One step of the horizontal blinker on any grid of width and height at
least 5 gives the vertical blinker back. -/
theorem blinker_step_two (W H : ℤ) (hW : 5 ≤ W) (hH : 5 ≤ H) :
    adjust_grid W H blinkerH = blinkerV := by
  ext c
  obtain ⟨a, b⟩ := c
  rw [mem_adjust_grid, aliveNeighborCount_eq_card]
  simp (disch := decide) only [blinkerV, blinkerH, Finset.card_filter, Finset.sum_insert,
    Finset.sum_singleton, Finset.mem_insert, Finset.mem_singleton, or_and_right, exists_or,
    exists_eq_left, mem_get_neighbors, inBounds, Prod.mk.injEq]
  split_ifs <;> omega

/-- Claim C5: on a grid of at least 5×5, the vertical blinker steps to the
horizontal blinker and back — a period-2 oscillator. -/
theorem blinker_period_two (W H : ℤ) (hW : 5 ≤ W) (hH : 5 ≤ H) :
    adjust_grid W H blinkerV = blinkerH ∧
      adjust_grid W H (adjust_grid W H blinkerV) = blinkerV := by
  have h1 := blinker_step_one W H hW hH
  refine ⟨h1, ?_⟩
  rw [h1]
  exact blinker_step_two W H hW hH

/-- Witness for C5 on the exact 5×5 grid. -/
theorem blinker_period_two_witness :
    adjust_grid 5 5 blinkerV = blinkerH ∧
      adjust_grid 5 5 (adjust_grid 5 5 blinkerV) = blinkerV :=
  blinker_period_two 5 5 (le_refl 5) (le_refl 5)

/-- Witness for C10 at (0,0) and (1,1) on the program's grid. -/
theorem neighbor_symm_witness :
    (((1, 1) : ℤ × ℤ) ∈ get_neighbors 40 40 (0, 0) ↔
      ((0, 0) : ℤ × ℤ) ∈ get_neighbors 40 40 (1, 1)) :=
  neighbor_symm 40 40 (0, 0) (1, 1) (by decide) (by decide)
